import Mathlib

/-
Verification development for the EMUPS5 repository: a minimal instruction-set
emulator with a register file, a flat byte memory, a memory-mapped framebuffer
and a run-state machine.  Three source variants are embedded:
  namespace P : PS5EMU1.06.29.251.0.py (16 regs, 128KB memory, opcodes 0..7,
                bounds-checked Memory, 128x128 framebuffer view of memory)
  namespace H : EMUPS55.17.25V0hdr.py (16 regs, 64KB memory, opcodes 0..5,
                unchecked numpy Memory, 64x64 framebuffer view of memory)
  namespace V : v1.py (256 regs, 16GB word memory, logging-only executor,
                separate 64x64 framebuffer array)
Machine integers are Nat with explicit reductions mod 2^w where the numpy
dtypes wrap.  Fallible numpy accesses (slices that raise) return Option.
-/

/-- Severity tag of a log event, mirroring the string tags used in the
source log queues. -/
inductive Severity
  | success
  | warning
  | error
deriving DecidableEq, Repr

/-- Flat byte memory: the numpy uint8 array of class Memory.  The field
data models the array contents as a function from index to byte value;
size models len of the array. -/
structure Memory where
  size : Nat
  data : Nat → Nat

/-- Machine state shared by the P and H variants: CPU registers (numpy
uint32 array, indexed by already-masked fields), program counter, the
Memory object, the Emulator run flags and the two event queues. -/
structure Machine where
  registers : Nat → Nat
  pc : Nat
  mem : Memory
  is_running : Bool
  game_loaded : Bool
  events : List (Severity × String)
  statuses : List (String × String)

/-- Opcode extraction shared by the 32-bit variants:
(instruction shifted right 24) masked with 0xFF. -/
def opcodeOf (instruction : Nat) : Nat :=
  instruction / 2 ^ 24 % 256

/-- Register store: assignment into the numpy uint32 register array wraps
the value mod 2^32. -/
def setReg (f : Nat → Nat) (i v : Nat) : Nat → Nat :=
  fun j => if j = i then v % 2 ^ 32 else f j

namespace P

/-- Memory.read_uint32 of PS5EMU1.06.29.251.0.py: returns 0 when the
4-byte range is out of bounds (address below 0 or address+4 above size),
otherwise the little-endian word at the address. -/
def read_uint32 (m : Memory) (address : Int) : Nat :=
  if address < 0 ∨ (m.size : Int) < address + 4 then 0
  else
    m.data address.toNat + 256 * m.data (address.toNat + 1) +
      65536 * m.data (address.toNat + 2) + 16777216 * m.data (address.toNat + 3)

/-- Memory.write_uint32 of PS5EMU1.06.29.251.0.py: no-op when the 4-byte
range is out of bounds, otherwise stores the little-endian bytes of the
value (wrapped to uint32 by the numpy dtype). -/
def write_uint32 (m : Memory) (address : Int) (value : Nat) : Memory :=
  if address < 0 ∨ (m.size : Int) < address + 4 then m
  else
    { m with data := fun i =>
        if i = address.toNat then value % 256
        else if i = address.toNat + 1 then value / 256 % 256
        else if i = address.toNat + 2 then value / 65536 % 256
        else if i = address.toNat + 3 then value / 16777216 % 256
        else m.data i }

/-- Memory.write_bytes of PS5EMU1.06.29.251.0.py: no-op when the range is
out of bounds, otherwise stores the byte list at the address (each byte
wrapped to uint8 by the numpy dtype). -/
def write_bytes (m : Memory) (address : Int) (values : List Nat) : Memory :=
  if address < 0 ∨ (m.size : Int) < address + values.length then m
  else
    { m with data := fun i =>
        if address.toNat ≤ i ∧ i < address.toNat + values.length then
          values.getD (i - address.toNat) 0 % 256
        else m.data i }

/-- CPU.execute_instruction of PS5EMU1.06.29.251.0.py: decodes the opcode
from the top byte and applies one state transition; JMP and a taken BEQ
set pc directly and return, every other path falls through to pc + 4. -/
def execute_instruction (st : Machine) (instruction : Nat) : Machine :=
  let opcode := opcodeOf instruction
  if opcode = 0 then
    { st with pc := st.pc + 4 }
  else if opcode = 1 then
    let rd := instruction / 2 ^ 20 % 16
    let rs := instruction / 2 ^ 16 % 16
    { st with registers := setReg st.registers rd (st.registers rs),
              pc := st.pc + 4 }
  else if opcode = 2 then
    let rd := instruction / 2 ^ 20 % 16
    let rs := instruction / 2 ^ 16 % 16
    let rt := instruction / 2 ^ 12 % 16
    { st with registers := setReg st.registers rd (st.registers rs + st.registers rt),
              pc := st.pc + 4 }
  else if opcode = 3 then
    let rd := instruction / 2 ^ 20 % 16
    let rs := instruction / 2 ^ 16 % 16
    let addr := st.registers rs
    { st with registers := setReg st.registers rd (read_uint32 st.mem (addr : Int)),
              pc := st.pc + 4 }
  else if opcode = 4 then
    let rs := instruction / 2 ^ 20 % 16
    let rd := instruction / 2 ^ 16 % 16
    let addr := st.registers rd
    { st with mem := write_uint32 st.mem (addr : Int) (st.registers rs),
              pc := st.pc + 4 }
  else if opcode = 5 then
    let x := instruction / 2 ^ 20 % 256
    let y := instruction / 2 ^ 12 % 256
    let r := instruction / 2 ^ 9 % 8
    let g := instruction / 2 ^ 6 % 8
    let b := instruction / 2 ^ 3 % 8
    let a := instruction % 8
    let mem :=
      if x < 128 ∧ y < 128 then
        write_bytes st.mem ((y * 128 * 4 + x * 4 : Nat) : Int)
          [r * 36, g * 36, b * 36, a * 36]
      else st.mem
    { st with mem := mem, pc := st.pc + 4 }
  else if opcode = 6 then
    { st with pc := instruction % 2 ^ 24 }
  else if opcode = 7 then
    let rs := instruction / 2 ^ 20 % 16
    let rt := instruction / 2 ^ 16 % 16
    let offset := instruction % 2 ^ 16
    if st.registers rs = st.registers rt then
      { st with pc := (st.pc + offset) % (128 * 1024) }
    else
      { st with pc := st.pc + 4 }
  else
    { st with events := st.events ++ [(Severity.error, "Unknown opcode: " ++ toString opcode)],
              pc := st.pc + 4 }

/-- Emulator state as built by Emulator init in PS5EMU1.06.29.251.0.py:
zeroed registers, pc 0, 128KB zeroed memory, not running, no program. -/
def initMachine : Machine :=
  ⟨fun _ => 0, 0, ⟨128 * 1024, fun _ => 0⟩, false, false, [], []⟩

/-- One word of the loader loop body: the little-endian uint32 read from
game_data at offset i when a full 4-byte chunk remains, else 0 (the source
expression value = frombuffer if i+4 at most len else 0). -/
def chunkWord (gd : List Nat) (i : Nat) : Nat :=
  if i + 4 ≤ gd.length then
    gd.getD i 0 + 256 * gd.getD (i + 1) 0 + 65536 * gd.getD (i + 2) 0 +
      16777216 * gd.getD (i + 3) 0
  else 0

/-- The loader loop of Emulator.load_game: for i in range(0, len, 4) write
chunkWord gd i at address i.  fuel counts the remaining iterations. -/
def load_loop (gd : List Nat) : Nat → Nat → Memory → Memory
  | _, 0, m => m
  | i, fuel + 1, m => load_loop gd (i + 4) fuel (write_uint32 m (i : Int) (chunkWord gd i))

/-- Emulator.load_game of PS5EMU1.06.29.251.0.py: logs a warning, writes
the program word-by-word from address 0, sets game_loaded and emits the
success event and status. -/
def load_game (st : Machine) (gd : List Nat) : Machine :=
  { st with
    mem := load_loop gd 0 ((gd.length + 3) / 4) st.mem,
    game_loaded := true,
    events := st.events ++
      [(Severity.warning, "Loading program..."),
       (Severity.success, "Program loaded successfully.")],
    statuses := st.statuses ++ [("Program loaded", "success")] }

/-- Emulator.start of PS5EMU1.06.29.251.0.py: refuses with one error event
when no program is loaded, otherwise sets is_running and reports success. -/
def start (st : Machine) : Machine :=
  if st.game_loaded = false then
    { st with events := st.events ++ [(Severity.error, "No program loaded!")] }
  else
    { st with is_running := true,
              events := st.events ++ [(Severity.success, "Emulator started.")],
              statuses := st.statuses ++ [("Running", "success")] }

/-- Emulator.pause of PS5EMU1.06.29.251.0.py. -/
def pause (st : Machine) : Machine :=
  { st with is_running := false,
            events := st.events ++ [(Severity.warning, "Emulator paused.")],
            statuses := st.statuses ++ [("Paused", "warning")] }

/-- Emulator.stop of PS5EMU1.06.29.251.0.py: clears is_running, resets pc
to 0 and emits the stopped event and status. -/
def stop (st : Machine) : Machine :=
  { st with is_running := false,
            pc := 0,
            events := st.events ++ [(Severity.error, "Emulator stopped.")],
            statuses := st.statuses ++ [("Stopped", "error")] }

/-- Emulator.run_cycle of PS5EMU1.06.29.251.0.py: returns unchanged unless
running; fetches the word at pc, executes it, and forces stop when the
resulting pc reaches the end of memory. -/
def run_cycle (st : Machine) : Machine :=
  if st.is_running then
    let instruction := read_uint32 st.mem (st.pc : Int)
    let st2 := execute_instruction st instruction
    if st2.mem.size ≤ st2.pc then stop st2 else st2
  else st

/-- The framebuffer handle of Emulator init in PS5EMU1.06.29.251.0.py:
self.framebuffer is a numpy view of memory bytes 0 to 128*128*4, so the
byte the presenter reads at flat index i is the memory byte at i. -/
def framebuffer (st : Machine) : Nat → Nat :=
  fun i => st.mem.data i

end P

namespace H

/-- Memory.read_uint32 of EMUPS55.17.25V0hdr.py: the numpy slice of 4
bytes starting at the address, reinterpreted as one uint32.  When fewer
than 4 bytes remain the source raises (frombuffer needs a multiple of 4
bytes, and indexing an empty array raises), modelled as none.  The
embedding covers the non-negative addresses all callers produce. -/
def read_uint32 (m : Memory) (address : Nat) : Option Nat :=
  if address + 4 ≤ m.size then
    some (m.data address + 256 * m.data (address + 1) +
      65536 * m.data (address + 2) + 16777216 * m.data (address + 3))
  else none

/-- Memory.write_uint32 of EMUPS55.17.25V0hdr.py: assigns 4 bytes into the
slice; when the slice is shorter than 4 the numpy broadcast raises,
modelled as none. -/
def write_uint32 (m : Memory) (address : Nat) (value : Nat) : Option Memory :=
  if address + 4 ≤ m.size then
    some { m with data := fun i =>
            if i = address then value % 256
            else if i = address + 1 then value / 256 % 256
            else if i = address + 2 then value / 65536 % 256
            else if i = address + 3 then value / 16777216 % 256
            else m.data i }
  else none

/-- Memory.write_bytes of EMUPS55.17.25V0hdr.py: assigns the byte list
into the slice; a short slice raises, modelled as none. -/
def write_bytes (m : Memory) (address : Nat) (values : List Nat) : Option Memory :=
  if address + values.length ≤ m.size then
    some { m with data := fun i =>
            if address ≤ i ∧ i < address + values.length then values.getD (i - address) 0 % 256
            else m.data i }
  else none

/-- CPU.execute_instruction of EMUPS55.17.25V0hdr.py: opcodes 0..5 with
4-bit operand fields; the unchecked memory accesses of LDR, STR and
SETPIXEL propagate a raised exception as none. -/
def execute_instruction (st : Machine) (instruction : Nat) : Option Machine :=
  let opcode := opcodeOf instruction
  if opcode = 0 then
    some { st with pc := st.pc + 4 }
  else if opcode = 1 then
    let rd := instruction / 2 ^ 20 % 16
    let rs := instruction / 2 ^ 16 % 16
    some { st with registers := setReg st.registers rd (st.registers rs),
                   pc := st.pc + 4 }
  else if opcode = 2 then
    let rd := instruction / 2 ^ 20 % 16
    let rs := instruction / 2 ^ 16 % 16
    let rt := instruction / 2 ^ 12 % 16
    some { st with registers := setReg st.registers rd (st.registers rs + st.registers rt),
                   pc := st.pc + 4 }
  else if opcode = 3 then
    let rd := instruction / 2 ^ 20 % 16
    let rs := instruction / 2 ^ 16 % 16
    match read_uint32 st.mem (st.registers rs) with
    | none => none
    | some v => some { st with registers := setReg st.registers rd v, pc := st.pc + 4 }
  else if opcode = 4 then
    let rs := instruction / 2 ^ 20 % 16
    let rd := instruction / 2 ^ 16 % 16
    match write_uint32 st.mem (st.registers rd) (st.registers rs) with
    | none => none
    | some m => some { st with mem := m, pc := st.pc + 4 }
  else if opcode = 5 then
    let x := instruction / 2 ^ 20 % 16
    let y := instruction / 2 ^ 16 % 16
    let r := instruction / 2 ^ 12 % 16
    let g := instruction / 2 ^ 8 % 16
    let b := instruction / 2 ^ 4 % 16
    let a := instruction % 16
    if x < 64 ∧ y < 64 then
      match write_bytes st.mem (y * 64 * 4 + x * 4) [r * 17, g * 17, b * 17, a * 17] with
      | none => none
      | some m => some { st with mem := m, pc := st.pc + 4 }
    else
      some { st with pc := st.pc + 4 }
  else
    some { st with events := st.events ++ [(Severity.error, "Unknown opcode: " ++ toString opcode)],
                   pc := st.pc + 4 }

/-- Emulator state as built by Emulator init in EMUPS55.17.25V0hdr.py:
zeroed registers, pc 0, 64KB zeroed memory, not running, no program. -/
def initMachine : Machine :=
  ⟨fun _ => 0, 0, ⟨64 * 1024, fun _ => 0⟩, false, false, [], []⟩

/-- The framebuffer handle of Emulator init in EMUPS55.17.25V0hdr.py:
self.framebuffer is a numpy view of memory bytes 0 to 64*64*4, so the
byte the presenter reads at flat index i is the memory byte at i. -/
def framebuffer (st : Machine) : Nat → Nat :=
  fun i => st.mem.data i

end H

namespace V

/-- Word count of the v1.py Memory: 16GB of bytes divided into uint64
words, so 2^31 words. -/
def msize : Nat := 16 * 1024 * 1024 * 1024 / 8

/-- Emulator state of v1.py: a uint64 word memory, 256 uint64 registers,
a uint64 pc, run flags, and a framebuffer that is a SEPARATE zeroed
64x64x4 uint8 array, not a view of memory. -/
structure Emulator where
  registers : Nat → Nat
  pc : Nat
  mem64 : Nat → Nat
  is_running : Bool
  game_loaded : Bool
  fb : Nat → Nat
  events : List (Severity × String)
  statuses : List (String × String)

/-- Memory.read of v1.py: indexes the word array at address div 8; an
index at or past the end raises, modelled as none. -/
def read (m64 : Nat → Nat) (address : Nat) : Option Nat :=
  if address / 8 < msize then some (m64 (address / 8)) else none

/-- Memory.write of v1.py: stores the value (wrapped to uint64) at word
index address div 8; an out-of-range index raises, modelled as none. -/
def write (m64 : Nat → Nat) (address value : Nat) : Option (Nat → Nat) :=
  if address / 8 < msize then
    some (fun j => if j = address / 8 then value % 2 ^ 64 else m64 j)
  else none

/-- Hex digit character for d below 16, as produced by the format string
of v1.py. -/
def hexDigit (d : Nat) : Char :=
  if d < 10 then Char.ofNat (48 + d) else Char.ofNat (87 + d)

/-- Fixed-width hex digit list, most significant first, mirroring the
016x format of v1.py for values below 2^64. -/
def hexAux : Nat → Nat → List Char
  | 0, _ => []
  | k + 1, n => hexAux k (n / 16) ++ [hexDigit (n % 16)]

/-- Sixteen-digit zero-padded lowercase hex rendering of a uint64. -/
def hex16 (n : Nat) : String :=
  String.mk (hexAux 16 n)

/-- CPU.execute_instruction of v1.py: logs the instruction and advances
the uint64 pc by 8; no other state changes. -/
def execute_instruction (st : Emulator) (instruction : Nat) : Emulator :=
  { st with
    events := st.events ++
      [(Severity.success, "Executing instruction: 0x" ++ hex16 instruction)],
    pc := (st.pc + 8) % 2 ^ 64 }

/-- One word of the v1.py loader loop: the little-endian uint64 read from
game_data at offset i when a full 8-byte chunk remains, else 0. -/
def chunkWord8 (gd : List Nat) (i : Nat) : Nat :=
  gd.getD i 0 + 256 * gd.getD (i + 1) 0 + 65536 * gd.getD (i + 2) 0 +
    16777216 * gd.getD (i + 3) 0 + 4294967296 * gd.getD (i + 4) 0 +
    1099511627776 * gd.getD (i + 5) 0 + 281474976710656 * gd.getD (i + 6) 0 +
    72057594037927936 * gd.getD (i + 7) 0

/-- The loader loop of v1.py Emulator.load_game: for i in range(0, len, 8)
write the chunk word (or 0 for a short trailing chunk) at address i. -/
def load_loop (gd : List Nat) : Nat → Nat → (Nat → Nat) → Option (Nat → Nat)
  | _, 0, m => some m
  | i, fuel + 1, m =>
    match write m i (if i + 8 ≤ gd.length then chunkWord8 gd i else 0) with
    | none => none
    | some m2 => load_loop gd (i + 8) fuel m2

/-- Emulator.load_game of v1.py: loads the bytes word-by-word from
address 0, sets game_loaded, and emits the load events. -/
def load_game (st : Emulator) (gd : List Nat) : Option Emulator :=
  match load_loop gd 0 ((gd.length + 7) / 8) st.mem64 with
  | none => none
  | some m =>
    some { st with
      mem64 := m,
      game_loaded := true,
      events := st.events ++
        [(Severity.warning, "Loading game..."),
         (Severity.success, "Game loaded successfully.")],
      statuses := st.statuses ++ [("Game loaded", "success")] }

/-- Emulator.start of v1.py. -/
def start (st : Emulator) : Emulator :=
  if st.game_loaded = false then
    { st with events := st.events ++ [(Severity.error, "No game loaded!")] }
  else
    { st with is_running := true,
              events := st.events ++ [(Severity.success, "Emulator started.")],
              statuses := st.statuses ++ [("Running", "success")] }

/-- Emulator.stop of v1.py. -/
def stop (st : Emulator) : Emulator :=
  { st with is_running := false,
            pc := 0,
            events := st.events ++ [(Severity.error, "Emulator stopped.")],
            statuses := st.statuses ++ [("Stopped", "error")] }

/-- Emulator.run_cycle of v1.py: when running, fetches and executes the
word at pc, then simulates graphics by writing one random pixel x, y with
random channels r, g, b and alpha 255 directly into the SEPARATE
framebuffer array (memory is untouched), then forces stop when pc reaches
the top of memory.  The random draws are passed as parameters; their
ranges are those of the randint calls. -/
def run_cycle (st : Emulator) (x y : Fin 64) (r g b : Fin 256) : Option Emulator :=
  if st.is_running = false then some st
  else
    match read st.mem64 st.pc with
    | none => none
    | some instruction =>
      let st2 := execute_instruction st instruction
      let st3 :=
        if st2.is_running then
          { st2 with fb := fun i =>
              if (y.val * 64 + x.val) * 4 ≤ i ∧ i < (y.val * 64 + x.val) * 4 + 4 then
                [r.val, g.val, b.val, 255].getD (i - (y.val * 64 + x.val) * 4) 0
              else st2.fb i }
        else st2
      if msize * 8 ≤ st3.pc then some (stop st3) else some st3

/-- Emulator state as built by Emulator init in v1.py: zeroed registers,
pc 0, zeroed word memory, not running, no game, zeroed separate
framebuffer. -/
def initEmulator : Emulator :=
  ⟨fun _ => 0, 0, fun _ => 0, false, false, fun _ => 0, [], []⟩

/-- Byte j of the v1.py byte-addressed memory range, reading the uint64
word array little-endian; this is the memory sub-range the aliasing
invariant compares the framebuffer against. -/
def memByte (st : Emulator) (j : Nat) : Nat :=
  st.mem64 (j / 8) / 256 ^ (j % 8) % 256

/-- A concrete reachable v1.py state: load an 8-byte all-zero game, start,
then one run_cycle whose random pixel is x 0, y 0 with channels 0, 0, 0. -/
def traceState : Option Emulator :=
  match load_game initEmulator [0, 0, 0, 0, 0, 0, 0, 0] with
  | none => none
  | some s1 => run_cycle (start s1) 0 0 0 0 0

end V

/-- Concrete machine for the aliasing witness: the EMUPS55 emulator with
register 0 holding the scaled RGBA word for channels 3, 4, 5, 6 and
register 1 holding the framebuffer address of pixel x 1, y 2. -/
def aliasState : Machine :=
  { H.initMachine with registers := fun n =>
      if n = 0 then 3 * 17 + 256 * (4 * 17) + 65536 * (5 * 17) + 16777216 * (6 * 17)
      else if n = 1 then 2 * 64 * 4 + 1 * 4
      else 0 }

/-- Concrete machine for the PS5EMU half of the aliasing witness: the
PS5EMU emulator with register 0 holding the packed scaled word for the
3-bit channels 7, 0, 0, 7 and register 1 holding the framebuffer address
of the pixel decoded from the witness SETPIXEL instruction. -/
def aliasState2 : Machine :=
  { P.initMachine with registers := fun n =>
      if n = 0 then 252 + 16777216 * 252
      else if n = 1 then 4928
      else 0 }

/-
Theorems.  Each claim of the specification review is settled below; helper
lemmas come first.
-/

/-- The checked write of the PS5EMU1.06.29.251.0.py Memory never changes
the array length. -/
theorem P_write_uint32_size (m : Memory) (a : Int) (v : Nat) :
    (P.write_uint32 m a v).size = m.size := by
  unfold P.write_uint32
  split <;> rfl

/-- The checked write of the PS5EMU1.06.29.251.0.py Memory leaves every
byte outside the written 4-byte range unchanged. -/
theorem P_write_uint32_data_outside (m : Memory) (a : Int) (v : Nat) (p : Nat)
    (h : (p : Int) < a ∨ a + 4 ≤ (p : Int)) :
    (P.write_uint32 m a v).data p = m.data p := by
  unfold P.write_uint32
  split
  · rfl
  · rename_i hc
    push_neg at hc
    simp only
    rw [if_neg (by omega), if_neg (by omega), if_neg (by omega), if_neg (by omega)]

/-- Claim C1 counterexample: the claim quantifies over both Memory
classes, but in EMUPS55.17.25V0hdr.py a read at out-of-range address
65536 (width 4, so the range ends past the memory size 65536) makes the
numpy reinterpretation raise, modelled as none: the read neither returns
0 nor completes without an exception. -/
theorem c1_hdr_oob_read_raises :
    H.read_uint32 H.initMachine.mem 65536 = none ∧
    H.read_uint32 H.initMachine.mem 65536 ≠ some 0 := by
  decide

/-- Claim C1 as amended: in the bounds-checked PS5EMU1.06.29.251.0.py
Memory, for every out-of-range access (address below 0 or range end past
the size) the word read returns 0, the word write leaves memory
unchanged, and write_bytes leaves memory unchanged; no exception path
exists.  The EMUPS55.17.25V0hdr.py Memory is unchecked and raises
instead. -/
theorem c1_checked_memory_oob (m : Memory) (a : Int) (v : Nat) (vs : List Nat)
    (h4 : a < 0 ∨ (m.size : Int) < a + 4)
    (hvs : a < 0 ∨ (m.size : Int) < a + vs.length) :
    P.read_uint32 m a = 0 ∧ P.write_uint32 m a v = m ∧ P.write_bytes m a vs = m := by
  refine ⟨?_, ?_, ?_⟩
  · unfold P.read_uint32
    rw [if_pos h4]
  · unfold P.write_uint32
    rw [if_pos h4]
  · unfold P.write_bytes
    rw [if_pos hvs]

/-- Claim C1 witness: the amended theorem evaluated at the negative
address -1 on the initial 128KB memory. -/
theorem c1_checked_memory_oob_witness :
    P.read_uint32 P.initMachine.mem (-1) = 0 ∧
    P.write_uint32 P.initMachine.mem (-1) 7 = P.initMachine.mem ∧
    P.write_bytes P.initMachine.mem (-1) [1, 2, 3] = P.initMachine.mem :=
  c1_checked_memory_oob P.initMachine.mem (-1) 7 [1, 2, 3]
    (Or.inl (by decide)) (Or.inl (by decide))

/-- Claim C2: executing opcode 7 (BEQ) with register fields A and B and
offset field off sets pc to (pc_before + off) mod memory_size when
reg A equals reg B (no further increment), and to pc_before + 4 (the
instruction width) otherwise; 128 * 1024 is the memory size of the
constructed emulator. -/
theorem c2_beq_pc (st : Machine) (instruction : Nat)
    (h : opcodeOf instruction = 7) :
    (P.execute_instruction st instruction).pc =
      (if st.registers (instruction / 2 ^ 20 % 16) =
          st.registers (instruction / 2 ^ 16 % 16) then
        (st.pc + instruction % 2 ^ 16) % (128 * 1024)
      else st.pc + 4) ∧
    P.initMachine.mem.size = 128 * 1024 := by
  refine ⟨?_, rfl⟩
  simp only [P.execute_instruction, h]
  norm_num
  split <;> rfl

/-- Claim C2 witness: a BEQ with both register fields naming register 0
(equal contents) and offset 5, from pc 0, lands on 5 mod the memory
size. -/
theorem c2_beq_pc_witness :
    (P.execute_instruction P.initMachine (7 * 2 ^ 24 + 5)).pc = 5 := by
  have h := c2_beq_pc P.initMachine (7 * 2 ^ 24 + 5) (by decide)
  rw [h.1]
  decide

/-- Claim C3: executing opcode 6 (JMP) sets pc to exactly the 24-bit
absolute address field, with no instruction-width increment applied
afterward, regardless of the prior pc. -/
theorem c3_jmp_pc (st : Machine) (instruction : Nat)
    (h : opcodeOf instruction = 6) :
    (P.execute_instruction st instruction).pc = instruction % 2 ^ 24 := by
  simp [P.execute_instruction, h]

/-- Claim C3 witness: a JMP with address field 16 from prior pc 999 lands
exactly on pc 16. -/
theorem c3_jmp_pc_witness :
    (P.execute_instruction { P.initMachine with pc := 999 } (6 * 2 ^ 24 + 16)).pc = 16 := by
  rw [c3_jmp_pc { P.initMachine with pc := 999 } (6 * 2 ^ 24 + 16) (by decide)]
  decide

/-- Claim C8: start() with no program loaded leaves the run-state and all
other machine state unchanged and emits exactly one error event (and no
status); with a program loaded it transitions the machine to Running. -/
theorem c8_start (st : Machine) :
    (P.start st).registers = st.registers ∧
    (P.start st).pc = st.pc ∧
    (P.start st).mem = st.mem ∧
    (P.start st).game_loaded = st.game_loaded ∧
    (P.start st).is_running = (if st.game_loaded then true else st.is_running) ∧
    (P.start st).events = st.events ++
      (if st.game_loaded then [(Severity.success, "Emulator started.")]
       else [(Severity.error, "No program loaded!")]) ∧
    (P.start st).statuses = st.statuses ++
      (if st.game_loaded then [("Running", "success")] else []) := by
  cases hgl : st.game_loaded <;> simp [P.start, hgl]

/-- Claim C9 counterexample: stop() twice from the initial state does not
have the same observable behaviour as stop() once: the event stream,
which the specification makes an observable interface, carries two
stopped events instead of one. -/
theorem c9_stop_not_observably_idempotent :
    (P.stop (P.stop P.initMachine)).events.length = 2 ∧
    (P.stop P.initMachine).events.length = 1 ∧
    (P.stop (P.stop P.initMachine)).events ≠ (P.stop P.initMachine).events := by
  decide

/-- Claim C9 as amended: stop() always sets the run-state to Halted and
resets pc to 0, and is idempotent on the machine state (registers, pc,
memory, run flags): a second stop() changes none of them; but each call
appends its own stopped event and status, so the emitted streams of two
calls strictly extend those of one call. -/
theorem c9_stop_state_idempotent (st : Machine) :
    (P.stop st).is_running = false ∧
    (P.stop st).pc = 0 ∧
    (P.stop (P.stop st)).registers = (P.stop st).registers ∧
    (P.stop (P.stop st)).pc = (P.stop st).pc ∧
    (P.stop (P.stop st)).mem = (P.stop st).mem ∧
    (P.stop (P.stop st)).is_running = (P.stop st).is_running ∧
    (P.stop (P.stop st)).game_loaded = (P.stop st).game_loaded ∧
    (P.stop (P.stop st)).events =
      (P.stop st).events ++ [(Severity.error, "Emulator stopped.")] ∧
    (P.stop (P.stop st)).statuses =
      (P.stop st).statuses ++ [("Stopped", "error")] :=
  ⟨rfl, rfl, rfl, rfl, rfl, rfl, rfl, rfl, rfl⟩

/-- Claim C7: run_cycle (the step operation) is a no-op when the machine
is not Running; after every completed call, if the machine is still
Running then pc is below the memory size; and whenever executing the
fetched instruction leaves pc at or past the top of memory, run_cycle
forces the stop transition, ending Halted with pc reset to 0. -/
theorem c7_run_cycle_halts (st : Machine) :
    (st.is_running = false → P.run_cycle st = st) ∧
    ((P.run_cycle st).is_running = true →
      (P.run_cycle st).pc < (P.run_cycle st).mem.size) ∧
    (st.is_running = true →
      (P.execute_instruction st (P.read_uint32 st.mem (st.pc : Int))).mem.size ≤
        (P.execute_instruction st (P.read_uint32 st.mem (st.pc : Int))).pc →
      P.run_cycle st =
        P.stop (P.execute_instruction st (P.read_uint32 st.mem (st.pc : Int))) ∧
      (P.run_cycle st).is_running = false ∧ (P.run_cycle st).pc = 0) := by
  refine ⟨?_, ?_, ?_⟩
  · intro h
    simp [P.run_cycle, h]
  · intro h
    by_cases hr : st.is_running
    · simp only [P.run_cycle, hr, if_true] at h ⊢
      by_cases hs : (P.execute_instruction st (P.read_uint32 st.mem (st.pc : Int))).mem.size ≤
          (P.execute_instruction st (P.read_uint32 st.mem (st.pc : Int))).pc
      · rw [if_pos hs] at h
        simp [P.stop] at h
      · rw [if_neg hs] at h ⊢
        omega
    · simp only [Bool.not_eq_true] at hr
      simp [P.run_cycle, hr] at h
  · intro hr hs
    simp only [P.run_cycle, hr, if_true]
    rw [if_pos hs]
    exact ⟨rfl, rfl, rfl⟩

/-- Claim C7 witness: the no-op branch on the idle initial machine, and
the forced halt from the running machine at pc 131068 whose NOP execution
lands pc exactly on the 128KB memory top. -/
theorem c7_run_cycle_halts_witness :
    P.run_cycle P.initMachine = P.initMachine ∧
    (P.run_cycle { P.initMachine with is_running := true, pc := 131068 }).is_running = false ∧
    (P.run_cycle { P.initMachine with is_running := true, pc := 131068 }).pc = 0 := by
  refine ⟨(c7_run_cycle_halts P.initMachine).1 rfl, ?_⟩
  have h := (c7_run_cycle_halts { P.initMachine with is_running := true, pc := 131068 }).2.2
    rfl (by decide)
  exact h.2

/-- Any byte produced by a Python bytes object is below 256, so the getD
reads of the loader stay below 256. -/
theorem gd_byte_lt (gd : List Nat) (hb : ∀ x ∈ gd, x < 256) (i : Nat) :
    gd.getD i 0 < 256 := by
  by_cases h : i < gd.length
  · rw [List.getD_eq_getElem gd 0 h]
    exact hb _ (List.getElem_mem h)
  · rw [List.getD_eq_default gd 0 (by omega)]
    norm_num

/-- In-range checked word write: byte k of the written range holds byte k
of the little-endian value. -/
theorem P_write_uint32_data_at (m : Memory) (a : Int) (v : Nat)
    (ha : 0 ≤ a) (hsz : a + 4 ≤ (m.size : Int)) (k : Nat) (hk : k < 4) :
    (P.write_uint32 m a v).data (a.toNat + k) = v / 256 ^ k % 256 := by
  have hin : ¬(a < 0 ∨ (m.size : Int) < a + 4) := by
    push_neg
    omega
  unfold P.write_uint32
  rw [if_neg hin]
  interval_cases k <;> simp

/-- The loader loop never changes the memory length. -/
theorem P_load_loop_size (gd : List Nat) :
    ∀ fuel i m, (P.load_loop gd i fuel m).size = m.size := by
  intro fuel
  induction fuel with
  | zero => intro i m; rfl
  | succ f ih =>
    intro i m
    show (P.load_loop gd (i + 4) f (P.write_uint32 m (i : Int) (P.chunkWord gd i))).size = m.size
    rw [ih, P_write_uint32_size]

/-- The loader loop leaves every byte below its start address unchanged:
its writes cover only addresses at or above the loop index. -/
theorem P_load_loop_lower (gd : List Nat) :
    ∀ fuel i m p, p < i → (P.load_loop gd i fuel m).data p = m.data p := by
  intro fuel
  induction fuel with
  | zero => intro i m p _; rfl
  | succ f ih =>
    intro i m p hp
    show (P.load_loop gd (i + 4) f (P.write_uint32 m (i : Int) (P.chunkWord gd i))).data p = m.data p
    rw [ih _ _ _ (by omega), P_write_uint32_data_outside]
    left
    exact_mod_cast hp

/-- Peeling the last iteration off the loader loop: fuel + 1 iterations
from address i are fuel iterations followed by the word write at
i + 4 * fuel. -/
theorem P_load_loop_peel (gd : List Nat) :
    ∀ fuel i m, P.load_loop gd i (fuel + 1) m =
      P.write_uint32 (P.load_loop gd i fuel m) ((i + 4 * fuel : Nat) : Int)
        (P.chunkWord gd (i + 4 * fuel)) := by
  intro fuel
  induction fuel with
  | zero =>
    intro i m
    show P.write_uint32 m (i : Int) (P.chunkWord gd i) = _
    norm_num [P.load_loop]
  | succ f ih =>
    intro i m
    show P.load_loop gd (i + 4) (f + 1) (P.write_uint32 m (i : Int) (P.chunkWord gd i)) = _
    rw [ih]
    have h2 : P.load_loop gd i (f + 1) m =
        P.load_loop gd (i + 4) f (P.write_uint32 m (i : Int) (P.chunkWord gd i)) := rfl
    rw [← h2, show i + 4 + 4 * f = i + 4 * (f + 1) from by ring]

/-- Every full 4-byte chunk of the program is stored verbatim by the
loader loop: byte k of word j equals input byte i + 4 * j + k. -/
theorem P_load_loop_full_word (gd : List Nat) (hb : ∀ x ∈ gd, x < 256) :
    ∀ fuel i m j k, j < fuel → k < 4 → i + 4 * j + 4 ≤ gd.length →
      i + 4 * j + 4 ≤ m.size →
      (P.load_loop gd i fuel m).data (i + 4 * j + k) = gd.getD (i + 4 * j + k) 0 := by
  intro fuel
  induction fuel with
  | zero =>
    intro i m j k hj
    exact absurd hj (Nat.not_lt_zero j)
  | succ f ih =>
    intro i m j k hj hk hlen hsz
    show (P.load_loop gd (i + 4) f (P.write_uint32 m (i : Int) (P.chunkWord gd i))).data
        (i + 4 * j + k) = gd.getD (i + 4 * j + k) 0
    cases j with
    | zero =>
      rw [P_load_loop_lower gd f (i + 4) _ _ (by omega)]
      have hbyte := P_write_uint32_data_at m (i : Int) (P.chunkWord gd i)
        (by positivity) (by omega) k hk
      rw [Int.toNat_natCast] at hbyte
      rw [show i + 4 * 0 + k = i + k from by ring, hbyte]
      have hchunk : P.chunkWord gd i =
          gd.getD i 0 + 256 * gd.getD (i + 1) 0 + 65536 * gd.getD (i + 2) 0 +
            16777216 * gd.getD (i + 3) 0 := by
        unfold P.chunkWord
        rw [if_pos (by omega)]
      have b0 := gd_byte_lt gd hb i
      have b1 := gd_byte_lt gd hb (i + 1)
      have b2 := gd_byte_lt gd hb (i + 2)
      have b3 := gd_byte_lt gd hb (i + 3)
      rw [hchunk]
      have p2 : (256 : Nat) ^ 2 = 65536 := by norm_num
      have p3 : (256 : Nat) ^ 3 = 16777216 := by norm_num
      interval_cases k <;>
        simp only [pow_zero, pow_one, p2, p3, Nat.div_one, Nat.add_zero] <;> omega
    | succ s =>
      rw [show i + 4 * (s + 1) + k = i + 4 + 4 * s + k from by ring]
      exact ih (i + 4) (P.write_uint32 m (i : Int) (P.chunkWord gd i)) s k (by omega) hk
        (by omega) (by rw [P_write_uint32_size]; omega)

/-- Claim C6 counterexample: loading the single byte 171 (a trailing
partial word) stores 0 at address 0, not 171: the trailing input bytes
are discarded, so the leading byte of the final stored word does not
equal the trailing input byte. -/
theorem c6_trailing_byte_discarded :
    (P.load_game P.initMachine [171]).mem.data 0 = 0 ∧
    (P.load_game P.initMachine [171]).mem.data 0 ≠ 171 := by
  decide

/-- Claim C6 as amended: load writes the byte sequence into memory from
address 0 word-by-word, every full 4-byte word verbatim, but the trailing
partial word is stored as the all-zero word (the trailing input bytes are
discarded, not kept and zero-padded); afterwards the machine is loaded
and the success event is emitted. -/
theorem c6_load_game_pads (st : Machine) (gd : List Nat)
    (hlen : gd.length % 4 ≠ 0) (hb : ∀ x ∈ gd, x < 256)
    (hsz : gd.length + 4 ≤ st.mem.size) :
    (∀ j k, 4 * j + 4 ≤ gd.length → k < 4 →
      (P.load_game st gd).mem.data (4 * j + k) = gd.getD (4 * j + k) 0) ∧
    (∀ k, k < 4 → (P.load_game st gd).mem.data (4 * (gd.length / 4) + k) = 0) ∧
    (P.load_game st gd).game_loaded = true ∧
    (P.load_game st gd).events = st.events ++
      [(Severity.warning, "Loading program..."),
       (Severity.success, "Program loaded successfully.")] := by
  have hmem : (P.load_game st gd).mem = P.load_loop gd 0 ((gd.length + 3) / 4) st.mem := rfl
  have hn : (gd.length + 3) / 4 = gd.length / 4 + 1 := by omega
  have hpeel := P_load_loop_peel gd (gd.length / 4) 0 st.mem
  have hchunk : P.chunkWord gd (0 + 4 * (gd.length / 4)) = 0 := by
    unfold P.chunkWord
    rw [if_neg (by omega)]
  simp only [Nat.zero_add] at hpeel hchunk
  refine ⟨?_, ?_, rfl, rfl⟩
  · intro j k hj hk
    rw [hmem, hn, hpeel, hchunk, P_write_uint32_data_outside]
    · have := P_load_loop_full_word gd hb (gd.length / 4) 0 st.mem j k
        (by omega) hk (by omega) (by omega)
      simpa using this
    · left
      push_cast
      omega
  · intro k hk
    rw [hmem, hn, hpeel, hchunk]
    have hszl : (P.load_loop gd 0 (gd.length / 4) st.mem).size = st.mem.size :=
      P_load_loop_size gd (gd.length / 4) 0 st.mem
    have hzero := P_write_uint32_data_at (P.load_loop gd 0 (gd.length / 4) st.mem)
      ((4 * (gd.length / 4) : Nat) : Int) 0 (by positivity) (by rw [hszl]; push_cast; omega)
      k hk
    rw [Int.toNat_natCast] at hzero
    rw [hzero]
    simp

/-- Claim C6 witness: loading the 5-byte program 1 2 3 4 5, the full
first word keeps byte 1 at address 0, the trailing partial word is the
zero word at address 4, and the machine ends loaded. -/
theorem c6_load_game_pads_witness :
    (P.load_game P.initMachine [1, 2, 3, 4, 5]).mem.data 0 = 1 ∧
    (P.load_game P.initMachine [1, 2, 3, 4, 5]).mem.data 4 = 0 ∧
    (P.load_game P.initMachine [1, 2, 3, 4, 5]).game_loaded = true := by
  have h := c6_load_game_pads P.initMachine [1, 2, 3, 4, 5]
    (by decide) (by decide) (by decide)
  refine ⟨?_, ?_, h.2.2.1⟩
  · have h0 := h.1 0 0 (by decide) (by decide)
    simpa using h0
  · have h4 := h.2.1 0 (by decide)
    simpa using h4

/-- Unchecked write_bytes succeeds exactly on an in-range slice, yielding
the byte-patched memory. -/
theorem H_write_bytes_some (m : Memory) (a : Nat) (vs : List Nat)
    (hsz : a + vs.length ≤ m.size) :
    H.write_bytes m a vs =
      some { m with
             data := fun i =>
               if a ≤ i ∧ i < a + vs.length then vs.getD (i - a) 0 % 256
               else m.data i } := by
  unfold H.write_bytes
  rw [if_pos hsz]

/-- Byte k of a successful unchecked write_bytes range holds input byte k
reduced to uint8. -/
theorem H_write_bytes_data_at (m : Memory) (a : Nat) (vs : List Nat) (m2 : Memory)
    (hw : H.write_bytes m a vs = some m2) (k : Nat) (hk : k < vs.length) :
    m2.data (a + k) = vs.getD k 0 % 256 := by
  unfold H.write_bytes at hw
  by_cases hsz : a + vs.length ≤ m.size
  · rw [if_pos hsz] at hw
    cases hw
    show (if a ≤ a + k ∧ a + k < a + vs.length then vs.getD (a + k - a) 0 % 256
      else m.data (a + k)) = vs.getD k 0 % 256
    rw [if_pos ⟨by omega, by omega⟩, Nat.add_sub_cancel_left]
  · rw [if_neg hsz] at hw
    exact Option.noConfusion hw

/-- A successful unchecked write_bytes leaves every byte outside the
written range unchanged. -/
theorem H_write_bytes_data_outside (m : Memory) (a : Nat) (vs : List Nat) (m2 : Memory)
    (hw : H.write_bytes m a vs = some m2) (i : Nat)
    (hi : i < a ∨ a + vs.length ≤ i) : m2.data i = m.data i := by
  unfold H.write_bytes at hw
  by_cases hsz : a + vs.length ≤ m.size
  · rw [if_pos hsz] at hw
    cases hw
    show (if a ≤ i ∧ i < a + vs.length then vs.getD (i - a) 0 % 256 else m.data i) = m.data i
    rw [if_neg (by omega)]
  · rw [if_neg hsz] at hw
    exact Option.noConfusion hw

/-- Unchecked word write succeeds exactly on an in-range slice, storing
the little-endian bytes of the value. -/
theorem H_write_uint32_some (m : Memory) (a v : Nat) (hsz : a + 4 ≤ m.size) :
    H.write_uint32 m a v =
      some { m with
             data := fun i =>
               if i = a then v % 256
               else if i = a + 1 then v / 256 % 256
               else if i = a + 2 then v / 65536 % 256
               else if i = a + 3 then v / 16777216 % 256
               else m.data i } := by
  unfold H.write_uint32
  rw [if_pos hsz]

/-- Executing a SETPIXEL instruction in the EMUPS55 variant reduces to
the write_bytes of the four scaled channel bytes at the decoded pixel
address, followed by the normal pc advance. -/
theorem H_execute_setpixel (st : Machine) (instr : Nat) (h : opcodeOf instr = 5)
    (hguard : instr / 2 ^ 20 % 16 < 64 ∧ instr / 2 ^ 16 % 16 < 64)
    (m2 : Memory)
    (hw : H.write_bytes st.mem
        (instr / 2 ^ 16 % 16 * 64 * 4 + instr / 2 ^ 20 % 16 * 4)
        [instr / 2 ^ 12 % 16 * 17, instr / 2 ^ 8 % 16 * 17,
         instr / 2 ^ 4 % 16 * 17, instr % 16 * 17] = some m2) :
    H.execute_instruction st instr = some { st with mem := m2, pc := st.pc + 4 } := by
  simp only [H.execute_instruction, h]
  rw [if_neg (by norm_num), if_neg (by norm_num), if_neg (by norm_num),
    if_neg (by norm_num), if_neg (by norm_num), if_pos trivial, if_pos hguard, hw]

/-- Executing a STR instruction in the EMUPS55 variant reduces to the
word write of the source register at the register-held address, followed
by the normal pc advance. -/
theorem H_execute_str (st : Machine) (instr : Nat) (h : opcodeOf instr = 4)
    (m2 : Memory)
    (hw : H.write_uint32 st.mem (st.registers (instr / 2 ^ 16 % 16))
        (st.registers (instr / 2 ^ 20 % 16)) = some m2) :
    H.execute_instruction st instr = some { st with mem := m2, pc := st.pc + 4 } := by
  simp only [H.execute_instruction, h]
  rw [if_neg (by norm_num), if_neg (by norm_num), if_neg (by norm_num),
    if_neg (by norm_num), if_pos trivial, hw]

/-- Executing a SETPIXEL instruction in the PS5EMU variant whose decoded
coordinates pass the guard reduces to the checked write_bytes of the four
scaled channel bytes at the decoded pixel address. -/
theorem P_execute_setpixel (st : Machine) (instr : Nat) (h : opcodeOf instr = 5)
    (hguard : instr / 2 ^ 20 % 256 < 128 ∧ instr / 2 ^ 12 % 256 < 128) :
    P.execute_instruction st instr =
      { st with
        mem := P.write_bytes st.mem
            ((instr / 2 ^ 12 % 256 * 128 * 4 + instr / 2 ^ 20 % 256 * 4 : Nat) : Int)
            [instr / 2 ^ 9 % 8 * 36, instr / 2 ^ 6 % 8 * 36,
             instr / 2 ^ 3 % 8 * 36, instr % 8 * 36],
        pc := st.pc + 4 } := by
  simp only [P.execute_instruction, h]
  rw [if_neg (by norm_num), if_neg (by norm_num), if_neg (by norm_num),
    if_neg (by norm_num), if_neg (by norm_num), if_pos trivial, if_pos hguard]

/-- Byte k of an in-range checked write_bytes range holds input byte k
reduced to uint8. -/
theorem P_write_bytes_data_at (m : Memory) (a : Nat) (vs : List Nat)
    (hsz : a + vs.length ≤ m.size) (k : Nat) (hk : k < vs.length) :
    (P.write_bytes m (a : Int) vs).data (a + k) = vs.getD k 0 % 256 := by
  unfold P.write_bytes
  rw [if_neg (by omega)]
  show (if (a : Int).toNat ≤ a + k ∧ a + k < (a : Int).toNat + vs.length then
    vs.getD (a + k - (a : Int).toNat) 0 % 256 else m.data (a + k)) = vs.getD k 0 % 256
  simp only [Int.toNat_natCast]
  rw [if_pos ⟨by omega, by omega⟩, Nat.add_sub_cancel_left]

/-- Byte k of a successful unchecked word write holds byte k of the
little-endian value. -/
theorem H_write_uint32_data_at (m : Memory) (a v : Nat) (m2 : Memory)
    (hw : H.write_uint32 m a v = some m2) (k : Nat) (hk : k < 4) :
    m2.data (a + k) = v / 256 ^ k % 256 := by
  unfold H.write_uint32 at hw
  by_cases hsz : a + 4 ≤ m.size
  · rw [if_pos hsz] at hw
    cases hw
    interval_cases k <;> simp
  · rw [if_neg hsz] at hw
    exact Option.noConfusion hw

/-- A successful unchecked word write leaves every byte outside the
written 4-byte range unchanged. -/
theorem H_write_uint32_data_outside (m : Memory) (a v : Nat) (m2 : Memory)
    (hw : H.write_uint32 m a v = some m2) (i : Nat)
    (hi : i < a ∨ a + 4 ≤ i) : m2.data i = m.data i := by
  unfold H.write_uint32 at hw
  by_cases hsz : a + 4 ≤ m.size
  · rw [if_pos hsz] at hw
    cases hw
    simp only
    rw [if_neg (by omega), if_neg (by omega), if_neg (by omega), if_neg (by omega)]
  · rw [if_neg hsz] at hw
    exact Option.noConfusion hw

/-- The four scaled channel bytes written by SETPIXEL coincide with the
little-endian bytes of the word a STR of the packed scaled value
stores. -/
theorem scaled_word_bytes (r g b a k : Nat) (hr : r < 16) (hg : g < 16)
    (hb : b < 16) (_ha : a < 16) (hk : k < 4) :
    [r * 17, g * 17, b * 17, a * 17].getD k 0 % 256 =
      (r * 17 + 256 * (g * 17) + 65536 * (b * 17) + 16777216 * (a * 17)) / 256 ^ k % 256 := by
  have h1 : (r * 17 + 256 * (g * 17) + 65536 * (b * 17) + 16777216 * (a * 17)) / 256 =
      g * 17 + 256 * (b * 17) + 65536 * (a * 17) := by
    rw [show r * 17 + 256 * (g * 17) + 65536 * (b * 17) + 16777216 * (a * 17) =
        r * 17 + 256 * (g * 17 + 256 * (b * 17) + 65536 * (a * 17)) from by ring,
      Nat.add_mul_div_left _ _ (by norm_num : (0 : Nat) < 256),
      Nat.div_eq_of_lt (by omega)]
    omega
  have h2 : (r * 17 + 256 * (g * 17) + 65536 * (b * 17) + 16777216 * (a * 17)) / 65536 =
      b * 17 + 256 * (a * 17) := by
    rw [show r * 17 + 256 * (g * 17) + 65536 * (b * 17) + 16777216 * (a * 17) =
        (r * 17 + 256 * (g * 17)) + 65536 * (b * 17 + 256 * (a * 17)) from by ring,
      Nat.add_mul_div_left _ _ (by norm_num : (0 : Nat) < 65536),
      Nat.div_eq_of_lt (by omega)]
    omega
  have h3 : (r * 17 + 256 * (g * 17) + 65536 * (b * 17) + 16777216 * (a * 17)) / 16777216 =
      a * 17 := by
    rw [show r * 17 + 256 * (g * 17) + 65536 * (b * 17) + 16777216 * (a * 17) =
        (r * 17 + 256 * (g * 17) + 65536 * (b * 17)) + 16777216 * (a * 17) from by ring,
      Nat.add_mul_div_left _ _ (by norm_num : (0 : Nat) < 16777216),
      Nat.div_eq_of_lt (by omega)]
    omega
  interval_cases k <;> simp [List.getD] <;> omega

/-- Decoding a SETPIXEL encoding of the EMUPS55 variant recovers each
4-bit field. -/
theorem setpixel_decode (x y r g b a : Nat)
    (hx : x < 16) (hy : y < 16) (hr : r < 16) (hg : g < 16) (hb : b < 16)
    (ha : a < 16) :
    opcodeOf (5 * 2 ^ 24 + x * 2 ^ 20 + y * 2 ^ 16 + r * 2 ^ 12 + g * 2 ^ 8 + b * 2 ^ 4 + a) = 5 ∧
    (5 * 2 ^ 24 + x * 2 ^ 20 + y * 2 ^ 16 + r * 2 ^ 12 + g * 2 ^ 8 + b * 2 ^ 4 + a) / 2 ^ 20 % 16 = x ∧
    (5 * 2 ^ 24 + x * 2 ^ 20 + y * 2 ^ 16 + r * 2 ^ 12 + g * 2 ^ 8 + b * 2 ^ 4 + a) / 2 ^ 16 % 16 = y ∧
    (5 * 2 ^ 24 + x * 2 ^ 20 + y * 2 ^ 16 + r * 2 ^ 12 + g * 2 ^ 8 + b * 2 ^ 4 + a) / 2 ^ 12 % 16 = r ∧
    (5 * 2 ^ 24 + x * 2 ^ 20 + y * 2 ^ 16 + r * 2 ^ 12 + g * 2 ^ 8 + b * 2 ^ 4 + a) / 2 ^ 8 % 16 = g ∧
    (5 * 2 ^ 24 + x * 2 ^ 20 + y * 2 ^ 16 + r * 2 ^ 12 + g * 2 ^ 8 + b * 2 ^ 4 + a) / 2 ^ 4 % 16 = b ∧
    (5 * 2 ^ 24 + x * 2 ^ 20 + y * 2 ^ 16 + r * 2 ^ 12 + g * 2 ^ 8 + b * 2 ^ 4 + a) % 16 = a := by
  unfold opcodeOf
  norm_num
  refine ⟨by omega, by omega, by omega, by omega, by omega, by omega, by omega⟩

/-- Claim C10: in the 16-register 64x64-framebuffer EMUPS55 variant the
SETPIXEL coordinate fields are 4 bits, so for every instruction word the
decoded x and y are at most 15, the guard x below 64 and y below 64 is
satisfied for every input, execution succeeds, and every byte outside
the top-left 16x16 pixel region (column bytes below 64 in each 256-byte
row, rows below 16) is left unchanged: pixels with x above 15 or y above
15 are unreachable through SETPIXEL. -/
theorem c10_setpixel_region (st : Machine) (instr : Nat)
    (h : opcodeOf instr = 5) (hsz : st.mem.size = 64 * 1024) :
    instr / 2 ^ 20 % 16 ≤ 15 ∧ instr / 2 ^ 16 % 16 ≤ 15 ∧
    instr / 2 ^ 20 % 16 < 64 ∧ instr / 2 ^ 16 % 16 < 64 ∧
    ∃ st', H.execute_instruction st instr = some st' ∧
      ∀ p, 64 ≤ p % 256 ∨ 16 ≤ p / 256 → st'.mem.data p = st.mem.data p := by
  have hx : instr / 2 ^ 20 % 16 < 16 := Nat.mod_lt _ (by norm_num)
  have hy : instr / 2 ^ 16 % 16 < 16 := Nat.mod_lt _ (by norm_num)
  refine ⟨by omega, by omega, by omega, by omega, ?_⟩
  norm_num at hx hy
  simp only [H.execute_instruction, h]
  norm_num
  rw [if_pos ⟨by omega, by omega⟩]
  unfold H.write_bytes
  simp only [List.length_cons, List.length_nil]
  rw [if_pos (by simp [hsz]; omega)]
  refine ⟨_, rfl, ?_⟩
  intro p hp
  simp only
  rw [if_neg ?neg]
  case neg =>
    rintro ⟨h1, h2⟩
    have hdiv : p / 256 = instr / 65536 % 16 :=
      Nat.div_eq_of_lt_le (by omega) (by omega)
    omega

/-- Claim C10 witness: the SETPIXEL instruction with all fields zero
succeeds and leaves byte 64 of row 0 (just outside the reachable 16x16
region) unchanged at 0. -/
theorem c10_setpixel_region_witness :
    ((H.execute_instruction H.initMachine (5 * 2 ^ 24)).map fun s => s.mem.data 64) =
      some 0 := by
  obtain ⟨_, _, _, _, st', he, hp⟩ :=
    c10_setpixel_region H.initMachine (5 * 2 ^ 24) (by decide) rfl
  rw [he, Option.map_some', hp 64 (by norm_num)]
  rfl

/-- Claim C4: the byte stored in the framebuffer for a raw channel value
v in a SETPIXEL instruction with w-bit channel fields is exactly
v * (255 / (2 ^ w - 1)): multiplier 17 for the 4-bit EMUPS55 variant and
36 for the 3-bit PS5EMU variant, for all four channels. -/
theorem c4_setpixel_scaling (st st2 : Machine) (instr instr2 : Nat)
    (h : opcodeOf instr = 5) (hsz : st.mem.size = 64 * 1024)
    (h2 : opcodeOf instr2 = 5) (hsz2 : st2.mem.size = 128 * 1024)
    (hx2 : instr2 / 2 ^ 20 % 256 < 128) (hy2 : instr2 / 2 ^ 12 % 256 < 128) :
    (∃ st', H.execute_instruction st instr = some st' ∧
      ∀ k, k < 4 →
        st'.mem.data (instr / 2 ^ 16 % 16 * 64 * 4 + instr / 2 ^ 20 % 16 * 4 + k) =
          [instr / 2 ^ 12 % 16, instr / 2 ^ 8 % 16, instr / 2 ^ 4 % 16,
            instr % 16].getD k 0 * (255 / (2 ^ 4 - 1))) ∧
    (∀ k, k < 4 →
      (P.execute_instruction st2 instr2).mem.data
          (instr2 / 2 ^ 12 % 256 * 128 * 4 + instr2 / 2 ^ 20 % 256 * 4 + k) =
        [instr2 / 2 ^ 9 % 8, instr2 / 2 ^ 6 % 8, instr2 / 2 ^ 3 % 8,
          instr2 % 8].getD k 0 * (255 / (2 ^ 3 - 1))) := by
  constructor
  · have hx : instr / 2 ^ 20 % 16 < 16 := Nat.mod_lt _ (by norm_num)
    have hy : instr / 2 ^ 16 % 16 < 16 := Nat.mod_lt _ (by norm_num)
    have hr : instr / 2 ^ 12 % 16 < 16 := Nat.mod_lt _ (by norm_num)
    have hg : instr / 2 ^ 8 % 16 < 16 := Nat.mod_lt _ (by norm_num)
    have hb : instr / 2 ^ 4 % 16 < 16 := Nat.mod_lt _ (by norm_num)
    have ha : instr % 16 < 16 := Nat.mod_lt _ (by norm_num)
    have hw := H_write_bytes_some st.mem
      (instr / 2 ^ 16 % 16 * 64 * 4 + instr / 2 ^ 20 % 16 * 4)
      [instr / 2 ^ 12 % 16 * 17, instr / 2 ^ 8 % 16 * 17,
       instr / 2 ^ 4 % 16 * 17, instr % 16 * 17]
      (by simp only [List.length_cons, List.length_nil, hsz]; omega)
    refine ⟨_, H_execute_setpixel st instr h ⟨by omega, by omega⟩ _ hw, ?_⟩
    intro k hk
    have hd := H_write_bytes_data_at st.mem _ _ _ hw k
      (by simp only [List.length_cons, List.length_nil]; omega)
    exact hd.trans (by interval_cases k <;> simp [List.getD] <;> omega)
  · have hr : instr2 / 2 ^ 9 % 8 < 8 := Nat.mod_lt _ (by norm_num)
    have hg : instr2 / 2 ^ 6 % 8 < 8 := Nat.mod_lt _ (by norm_num)
    have hb : instr2 / 2 ^ 3 % 8 < 8 := Nat.mod_lt _ (by norm_num)
    have ha : instr2 % 8 < 8 := Nat.mod_lt _ (by norm_num)
    intro k hk
    rw [P_execute_setpixel st2 instr2 h2 ⟨hx2, hy2⟩]
    have hd := P_write_bytes_data_at st2.mem
      (instr2 / 2 ^ 12 % 256 * 128 * 4 + instr2 / 2 ^ 20 % 256 * 4)
      [instr2 / 2 ^ 9 % 8 * 36, instr2 / 2 ^ 6 % 8 * 36,
       instr2 / 2 ^ 3 % 8 * 36, instr2 % 8 * 36]
      (by simp only [List.length_cons, List.length_nil, hsz2]; omega) k
      (by simp only [List.length_cons, List.length_nil]; omega)
    exact hd.trans (by interval_cases k <;> simp [List.getD] <;> omega)

/-- Claim C4 witness: 4-bit red value 15 stores byte 255 (and green 0
stores 0) at pixel x 2, y 3 in the EMUPS55 variant; 3-bit red value 7
stores byte 252 in the PS5EMU variant. -/
theorem c4_setpixel_scaling_witness :
    ((H.execute_instruction H.initMachine
        (5 * 2 ^ 24 + 2 * 2 ^ 20 + 3 * 2 ^ 16 + 15 * 2 ^ 12 + 7 * 2 ^ 4 + 1)).map
      fun s => (s.mem.data 776, s.mem.data 777)) = some (255, 0) ∧
    (P.execute_instruction P.initMachine
        (5 * 2 ^ 24 + 9 * 2 ^ 12 + 7 * 2 ^ 9 + 7)).mem.data 4928 = 252 := by
  obtain ⟨⟨st', he, hd⟩, hp⟩ := c4_setpixel_scaling H.initMachine P.initMachine
    (5 * 2 ^ 24 + 2 * 2 ^ 20 + 3 * 2 ^ 16 + 15 * 2 ^ 12 + 7 * 2 ^ 4 + 1)
    (5 * 2 ^ 24 + 9 * 2 ^ 12 + 7 * 2 ^ 9 + 7)
    (by decide) rfl (by decide) rfl (by decide) (by decide)
  constructor
  · rw [he, Option.map_some']
    have h0 := hd 0 (by norm_num)
    have h1 := hd 1 (by norm_num)
    norm_num at h0 h1
    rw [h0, h1]
  · have h0 := hp 0 (by norm_num)
    norm_num at h0
    exact h0

/-- Claim C5 counterexample: in the v1.py variant the framebuffer is a
separate array, not a view of memory: after loading an all-zero 8-byte
game, starting, and one run cycle (random pixel x 0, y 0, channels 0),
the framebuffer byte at flat index 3 reads 255 while the memory sub-range
byte 3 is still 0, so the presenter view differs from memory in a
reachable state. -/
theorem c5_v1_framebuffer_not_aliased :
    (V.traceState.map fun st => (st.fb 3, V.memByte st 3)) = some (255, 0) ∧
    (255 : Nat) ≠ 0 := by
  constructor
  · decide
  · decide

/-- Executing a STR instruction in the PS5EMU variant reduces to the
checked word write of the source register at the register-held address,
followed by the normal pc advance. -/
theorem P_execute_str (st : Machine) (instr : Nat) (h : opcodeOf instr = 4) :
    P.execute_instruction st instr =
      { st with
        mem := P.write_uint32 st.mem
            ((st.registers (instr / 2 ^ 16 % 16) : Nat) : Int)
            (st.registers (instr / 2 ^ 20 % 16)),
        pc := st.pc + 4 } := by
  simp only [P.execute_instruction, h]
  rw [if_neg (by norm_num), if_neg (by norm_num), if_neg (by norm_num),
    if_neg (by norm_num), if_pos trivial]

/-- A checked write_bytes leaves every byte outside the written range
unchanged. -/
theorem P_write_bytes_data_outside (m : Memory) (a : Int) (vs : List Nat) (p : Nat)
    (h : (p : Int) < a ∨ a + vs.length ≤ (p : Int)) :
    (P.write_bytes m a vs).data p = m.data p := by
  unfold P.write_bytes
  split
  · rfl
  · rename_i hc
    push_neg at hc
    simp only
    rw [if_neg (by omega)]

/-- The four scaled 3-bit channel bytes written by the PS5EMU SETPIXEL
coincide with the little-endian bytes of the word a STR of the packed
scaled value stores. -/
theorem scaled_word_bytes36 (r g b a k : Nat) (hr : r < 8) (hg : g < 8)
    (hb : b < 8) (_ha : a < 8) (hk : k < 4) :
    [r * 36, g * 36, b * 36, a * 36].getD k 0 % 256 =
      (r * 36 + 256 * (g * 36) + 65536 * (b * 36) + 16777216 * (a * 36)) / 256 ^ k % 256 := by
  have h1 : (r * 36 + 256 * (g * 36) + 65536 * (b * 36) + 16777216 * (a * 36)) / 256 =
      g * 36 + 256 * (b * 36) + 65536 * (a * 36) := by
    rw [show r * 36 + 256 * (g * 36) + 65536 * (b * 36) + 16777216 * (a * 36) =
        r * 36 + 256 * (g * 36 + 256 * (b * 36) + 65536 * (a * 36)) from by ring,
      Nat.add_mul_div_left _ _ (by norm_num : (0 : Nat) < 256),
      Nat.div_eq_of_lt (by omega)]
    omega
  have h2 : (r * 36 + 256 * (g * 36) + 65536 * (b * 36) + 16777216 * (a * 36)) / 65536 =
      b * 36 + 256 * (a * 36) := by
    rw [show r * 36 + 256 * (g * 36) + 65536 * (b * 36) + 16777216 * (a * 36) =
        (r * 36 + 256 * (g * 36)) + 65536 * (b * 36 + 256 * (a * 36)) from by ring,
      Nat.add_mul_div_left _ _ (by norm_num : (0 : Nat) < 65536),
      Nat.div_eq_of_lt (by omega)]
    omega
  have h3 : (r * 36 + 256 * (g * 36) + 65536 * (b * 36) + 16777216 * (a * 36)) / 16777216 =
      a * 36 := by
    rw [show r * 36 + 256 * (g * 36) + 65536 * (b * 36) + 16777216 * (a * 36) =
        (r * 36 + 256 * (g * 36) + 65536 * (b * 36)) + 16777216 * (a * 36) from by ring,
      Nat.add_mul_div_left _ _ (by norm_num : (0 : Nat) < 16777216),
      Nat.div_eq_of_lt (by omega)]
    omega
  interval_cases k <;> simp [List.getD] <;> omega

/-- In the EMUPS55 variant, a SETPIXEL write and a STR write to the
overlapping framebuffer address produce identical framebuffer views:
register 1 holds the pixel address and register 0 the packed scaled
word. -/
theorem c5_aliasing_view_H (st : Machine) (x y r g b a : Nat)
    (hx : x < 16) (hy : y < 16) (hr : r < 16) (hg : g < 16) (hb : b < 16)
    (ha : a < 16) (hsz : st.mem.size = 64 * 1024)
    (hreg0 : st.registers 0 = r * 17 + 256 * (g * 17) + 65536 * (b * 17) +
      16777216 * (a * 17))
    (hreg1 : st.registers 1 = y * 64 * 4 + x * 4) :
    ∃ s1 s2,
      H.execute_instruction st
        (5 * 2 ^ 24 + x * 2 ^ 20 + y * 2 ^ 16 + r * 2 ^ 12 + g * 2 ^ 8 + b * 2 ^ 4 + a) =
        some s1 ∧
      H.execute_instruction st (4 * 2 ^ 24 + 1 * 2 ^ 16) = some s2 ∧
      ∀ i, H.framebuffer s1 i = H.framebuffer s2 i := by
  obtain ⟨hop, h20, h16, h12, h8, h4, h0⟩ := setpixel_decode x y r g b a hx hy hr hg hb ha
  obtain ⟨M1, hw1⟩ : ∃ mm, H.write_bytes st.mem
      ((5 * 2 ^ 24 + x * 2 ^ 20 + y * 2 ^ 16 + r * 2 ^ 12 + g * 2 ^ 8 + b * 2 ^ 4 + a) / 2 ^ 16 % 16 * 64 * 4 +
        (5 * 2 ^ 24 + x * 2 ^ 20 + y * 2 ^ 16 + r * 2 ^ 12 + g * 2 ^ 8 + b * 2 ^ 4 + a) / 2 ^ 20 % 16 * 4)
      [(5 * 2 ^ 24 + x * 2 ^ 20 + y * 2 ^ 16 + r * 2 ^ 12 + g * 2 ^ 8 + b * 2 ^ 4 + a) / 2 ^ 12 % 16 * 17,
       (5 * 2 ^ 24 + x * 2 ^ 20 + y * 2 ^ 16 + r * 2 ^ 12 + g * 2 ^ 8 + b * 2 ^ 4 + a) / 2 ^ 8 % 16 * 17,
       (5 * 2 ^ 24 + x * 2 ^ 20 + y * 2 ^ 16 + r * 2 ^ 12 + g * 2 ^ 8 + b * 2 ^ 4 + a) / 2 ^ 4 % 16 * 17,
       (5 * 2 ^ 24 + x * 2 ^ 20 + y * 2 ^ 16 + r * 2 ^ 12 + g * 2 ^ 8 + b * 2 ^ 4 + a) % 16 * 17] = some mm :=
    ⟨_, H_write_bytes_some st.mem _ _
      (by simp only [List.length_cons, List.length_nil, h16, h20, hsz]; omega)⟩
  have he1 := H_execute_setpixel st
    (5 * 2 ^ 24 + x * 2 ^ 20 + y * 2 ^ 16 + r * 2 ^ 12 + g * 2 ^ 8 + b * 2 ^ 4 + a)
    hop (by rw [h20, h16]; exact ⟨by omega, by omega⟩) _ hw1
  have e16 : (4 * 2 ^ 24 + 1 * 2 ^ 16) / 2 ^ 16 % 16 = 1 := by norm_num
  have e20 : (4 * 2 ^ 24 + 1 * 2 ^ 16) / 2 ^ 20 % 16 = 0 := by norm_num
  obtain ⟨M2, hw2⟩ : ∃ mm, H.write_uint32 st.mem
      (st.registers ((4 * 2 ^ 24 + 1 * 2 ^ 16) / 2 ^ 16 % 16))
      (st.registers ((4 * 2 ^ 24 + 1 * 2 ^ 16) / 2 ^ 20 % 16)) = some mm :=
    ⟨_, H_write_uint32_some st.mem _ _ (by rw [e16, hreg1]; omega)⟩
  have he2 := H_execute_str st (4 * 2 ^ 24 + 1 * 2 ^ 16) (by norm_num [opcodeOf]) _ hw2
  rw [h16, h20, h12, h8, h4, h0] at hw1
  rw [e16, e20, hreg0, hreg1] at hw2
  refine ⟨_, _, he1, he2, ?_⟩
  intro i
  show M1.data i = M2.data i
  by_cases hi : y * 64 * 4 + x * 4 ≤ i ∧ i < y * 64 * 4 + x * 4 + 4
  · obtain ⟨k, hk, rfl⟩ : ∃ k, k < 4 ∧ i = y * 64 * 4 + x * 4 + k :=
      ⟨i - (y * 64 * 4 + x * 4), by omega, by omega⟩
    rw [H_write_bytes_data_at st.mem _ _ _ hw1 k
        (by simp only [List.length_cons, List.length_nil]; omega),
      H_write_uint32_data_at st.mem _ _ _ hw2 k hk]
    exact scaled_word_bytes r g b a k hr hg hb ha hk
  · rw [H_write_bytes_data_outside st.mem _ _ _ hw1 i
        (by simp only [List.length_cons, List.length_nil]; omega),
      H_write_uint32_data_outside st.mem _ _ _ hw2 i (by omega)]

/-- In the PS5EMU variant, a SETPIXEL write and a STR write to the
overlapping framebuffer address produce identical framebuffer views:
register 1 holds the decoded pixel address and register 0 the packed
scaled word. -/
theorem c5_aliasing_view_P (st2 : Machine) (instr2 : Nat) (h2 : opcodeOf instr2 = 5)
    (hx2 : instr2 / 2 ^ 20 % 256 < 128) (hy2 : instr2 / 2 ^ 12 % 256 < 128)
    (hsz2 : st2.mem.size = 128 * 1024)
    (hreg0b : st2.registers 0 = instr2 / 2 ^ 9 % 8 * 36 +
      256 * (instr2 / 2 ^ 6 % 8 * 36) + 65536 * (instr2 / 2 ^ 3 % 8 * 36) +
      16777216 * (instr2 % 8 * 36))
    (hreg1b : st2.registers 1 = instr2 / 2 ^ 12 % 256 * 128 * 4 +
      instr2 / 2 ^ 20 % 256 * 4) :
    ∀ i, P.framebuffer (P.execute_instruction st2 instr2) i =
      P.framebuffer (P.execute_instruction st2 (4 * 2 ^ 24 + 1 * 2 ^ 16)) i := by
  have hr2 : instr2 / 2 ^ 9 % 8 < 8 := Nat.mod_lt _ (by norm_num)
  have hg2 : instr2 / 2 ^ 6 % 8 < 8 := Nat.mod_lt _ (by norm_num)
  have hb2 : instr2 / 2 ^ 3 % 8 < 8 := Nat.mod_lt _ (by norm_num)
  have ha2 : instr2 % 8 < 8 := Nat.mod_lt _ (by norm_num)
  have e16 : (4 * 2 ^ 24 + 1 * 2 ^ 16) / 2 ^ 16 % 16 = 1 := by norm_num
  have e20 : (4 * 2 ^ 24 + 1 * 2 ^ 16) / 2 ^ 20 % 16 = 0 := by norm_num
  intro i
  rw [P_execute_setpixel st2 instr2 h2 ⟨hx2, hy2⟩,
    P_execute_str st2 (4 * 2 ^ 24 + 1 * 2 ^ 16) (by norm_num [opcodeOf])]
  simp only [P.framebuffer]
  rw [e16, e20, hreg0b, hreg1b]
  by_cases hi : instr2 / 2 ^ 12 % 256 * 128 * 4 + instr2 / 2 ^ 20 % 256 * 4 ≤ i ∧
      i < instr2 / 2 ^ 12 % 256 * 128 * 4 + instr2 / 2 ^ 20 % 256 * 4 + 4
  · obtain ⟨k, hk, rfl⟩ : ∃ k, k < 4 ∧
        i = instr2 / 2 ^ 12 % 256 * 128 * 4 + instr2 / 2 ^ 20 % 256 * 4 + k :=
      ⟨i - (instr2 / 2 ^ 12 % 256 * 128 * 4 + instr2 / 2 ^ 20 % 256 * 4), by omega, by omega⟩
    have hd1 := P_write_bytes_data_at st2.mem
      (instr2 / 2 ^ 12 % 256 * 128 * 4 + instr2 / 2 ^ 20 % 256 * 4)
      [instr2 / 2 ^ 9 % 8 * 36, instr2 / 2 ^ 6 % 8 * 36,
       instr2 / 2 ^ 3 % 8 * 36, instr2 % 8 * 36]
      (by simp only [List.length_cons, List.length_nil, hsz2]; omega) k
      (by simp only [List.length_cons, List.length_nil]; omega)
    have hd2 := P_write_uint32_data_at st2.mem
      ((instr2 / 2 ^ 12 % 256 * 128 * 4 + instr2 / 2 ^ 20 % 256 * 4 : Nat) : Int)
      (instr2 / 2 ^ 9 % 8 * 36 + 256 * (instr2 / 2 ^ 6 % 8 * 36) +
        65536 * (instr2 / 2 ^ 3 % 8 * 36) + 16777216 * (instr2 % 8 * 36))
      (by positivity) (by rw [hsz2]; omega) k hk
    rw [Int.toNat_natCast] at hd2
    rw [hd1, hd2]
    exact scaled_word_bytes36 (instr2 / 2 ^ 9 % 8) (instr2 / 2 ^ 6 % 8)
      (instr2 / 2 ^ 3 % 8) (instr2 % 8) k hr2 hg2 hb2 ha2 hk
  · rw [P_write_bytes_data_outside st2.mem
        ((instr2 / 2 ^ 12 % 256 * 128 * 4 + instr2 / 2 ^ 20 % 256 * 4 : Nat) : Int)
        [instr2 / 2 ^ 9 % 8 * 36, instr2 / 2 ^ 6 % 8 * 36,
         instr2 / 2 ^ 3 % 8 * 36, instr2 % 8 * 36] i
        (by simp only [List.length_cons, List.length_nil]; omega),
      P_write_uint32_data_outside st2.mem
        ((instr2 / 2 ^ 12 % 256 * 128 * 4 + instr2 / 2 ^ 20 % 256 * 4 : Nat) : Int)
        (instr2 / 2 ^ 9 % 8 * 36 + 256 * (instr2 / 2 ^ 6 % 8 * 36) +
          65536 * (instr2 / 2 ^ 3 % 8 * 36) + 16777216 * (instr2 % 8 * 36)) i
        (by omega)]

/-- Claim C5 as amended for the variants whose framebuffer is a view of
memory (both the EMUPS55 and the PS5EMU variant): a SETPIXEL write and a
STR (generic store) write to the overlapping framebuffer address produce
byte-for-byte identical presenter-visible framebuffer contents, because
both mutate the single memory array the framebuffer aliases.  In each
variant register 1 holds the pixel address and register 0 holds the
little-endian word of the scaled channel bytes. -/
theorem c5_aliasing (st : Machine) (x y r g b a : Nat)
    (hx : x < 16) (hy : y < 16) (hr : r < 16) (hg : g < 16) (hb : b < 16)
    (ha : a < 16) (hsz : st.mem.size = 64 * 1024)
    (hreg0 : st.registers 0 = r * 17 + 256 * (g * 17) + 65536 * (b * 17) +
      16777216 * (a * 17))
    (hreg1 : st.registers 1 = y * 64 * 4 + x * 4)
    (st2 : Machine) (instr2 : Nat) (h2 : opcodeOf instr2 = 5)
    (hx2 : instr2 / 2 ^ 20 % 256 < 128) (hy2 : instr2 / 2 ^ 12 % 256 < 128)
    (hsz2 : st2.mem.size = 128 * 1024)
    (hreg0b : st2.registers 0 = instr2 / 2 ^ 9 % 8 * 36 +
      256 * (instr2 / 2 ^ 6 % 8 * 36) + 65536 * (instr2 / 2 ^ 3 % 8 * 36) +
      16777216 * (instr2 % 8 * 36))
    (hreg1b : st2.registers 1 = instr2 / 2 ^ 12 % 256 * 128 * 4 +
      instr2 / 2 ^ 20 % 256 * 4) :
    (∃ s1 s2,
      H.execute_instruction st
        (5 * 2 ^ 24 + x * 2 ^ 20 + y * 2 ^ 16 + r * 2 ^ 12 + g * 2 ^ 8 + b * 2 ^ 4 + a) =
        some s1 ∧
      H.execute_instruction st (4 * 2 ^ 24 + 1 * 2 ^ 16) = some s2 ∧
      ∀ i, H.framebuffer s1 i = H.framebuffer s2 i) ∧
    (∀ i, P.framebuffer (P.execute_instruction st2 instr2) i =
      P.framebuffer (P.execute_instruction st2 (4 * 2 ^ 24 + 1 * 2 ^ 16)) i) :=
  ⟨c5_aliasing_view_H st x y r g b a hx hy hr hg hb ha hsz hreg0 hreg1,
   c5_aliasing_view_P st2 instr2 h2 hx2 hy2 hsz2 hreg0b hreg1b⟩

/-- Claim C5 witness: on concrete machines whose registers hold the
packed scaled word and the pixel address, the SETPIXEL write and the STR
write produce the same framebuffer byte at the pixel address, in both
the EMUPS55 variant (address 516) and the PS5EMU variant (address
4928). -/
theorem c5_aliasing_witness :
    (((H.execute_instruction aliasState
        (5 * 2 ^ 24 + 1 * 2 ^ 20 + 2 * 2 ^ 16 + 3 * 2 ^ 12 + 4 * 2 ^ 8 + 5 * 2 ^ 4 + 6)).map
      fun s => H.framebuffer s 516) =
    ((H.execute_instruction aliasState (4 * 2 ^ 24 + 1 * 2 ^ 16)).map
      fun s => H.framebuffer s 516)) ∧
    P.framebuffer (P.execute_instruction aliasState2
        (5 * 2 ^ 24 + 9 * 2 ^ 12 + 7 * 2 ^ 9 + 7)) 4928 =
      P.framebuffer (P.execute_instruction aliasState2 (4 * 2 ^ 24 + 1 * 2 ^ 16)) 4928 := by
  obtain ⟨⟨s1, s2, he1, he2, hfb⟩, hp⟩ := c5_aliasing aliasState 1 2 3 4 5 6
    (by norm_num) (by norm_num) (by norm_num) (by norm_num) (by norm_num) (by norm_num)
    rfl rfl rfl
    aliasState2 (5 * 2 ^ 24 + 9 * 2 ^ 12 + 7 * 2 ^ 9 + 7)
    (by decide) (by decide) (by decide) rfl (by decide) (by decide)
  refine ⟨?_, hp 4928⟩
  rw [he1, he2, Option.map_some', Option.map_some', hfb 516]
